import Mathlib

/-!
Shallow embedding of the headr repository (src/lib.rs), a head-like
prefix-extraction tool, together with proofs settling the frozen claims.

The embedding models:
  - `parse`   : the count-specification parser (fn parse, lib.rs:148-178),
    over a Rust string represented as a list of characters; byte indices
    (Rust slicing is byte based) are modelled through `charSize`/`byteLen`
    and the boundary-checked `sliceTo`.  A Rust panic (unwrap on None,
    out-of-range or non-boundary slice) is the `ParseResult.crash` value;
    i128 arithmetic wraps through `wrapI128` as in a release build, and the
    usize subtraction `len -= 2` wraps modulo 2^64.
  - `runModel`: fn run (lib.rs:77-126) with fn open (lib.rs:128-146), over a
    pure file system `String -> Option (List Nat)` (None = open fails) and
    a stdin byte list; stdout is a byte list, stderr the list of failed
    source names, and the Bool is whether run returned Ok.
-/

namespace Headr

/-- UTF-8 width of a character, as in Rust `char::len_utf8`. -/
def charSize (c : Char) : Nat :=
  if c.toNat < 128 then 1
  else if c.toNat < 2048 then 2
  else if c.toNat < 65536 then 3
  else 4

/-- Byte length of a Rust string given as its characters (`str::len`). -/
def byteLen (cs : List Char) : Nat := (cs.map charSize).sum

/-- Byte-based prefix slice `val[0..n]` of a Rust string: `none` when `n` is
out of range or not on a character boundary (both are Rust panics). -/
def sliceTo (l : List Char) (n : Nat) : Option (List Char) :=
  if n = 0 then some []
  else
    match l with
    | [] => none
    | c :: cs => if charSize c ≤ n then (sliceTo cs (n - charSize c)).map (c :: ·) else none

/-- Byte index of the first occurrence of `c`, as in Rust `str::find` (the
haystacks used here are ASCII, so byte index and character index agree). -/
def strFind (c : Char) : List Char → Option Nat
  | [] => none
  | d :: ds => if d = c then some 0 else (strFind c ds).map (· + 1)

/-- 2^127, one past the largest i128 value. -/
def i128Half : Int := 170141183460469231731687303715884105728

/-- 2^128, the i128 wraparound modulus. -/
def i128Mod : Int := 340282366920938463463374607431768211456

/-- 2^64, the usize wraparound modulus. -/
def usizeMod : Nat := 18446744073709551616

/-- Two-complement wraparound of an exact integer into i128 range, the
release-build semantics of overflowing i128 arithmetic. -/
def wrapI128 (x : Int) : Int := (x + i128Half) % i128Mod - i128Half

/-- Value of a decimal digit character, `none` for a non-digit. -/
def digitVal (c : Char) : Option Nat :=
  if 48 ≤ c.toNat ∧ c.toNat ≤ 57 then some (c.toNat - 48) else none

/-- Accumulate decimal digits; `none` as soon as a non-digit appears. -/
def digitsAux : Nat → List Char → Option Nat
  | acc, [] => some acc
  | acc, c :: cs =>
    match digitVal c with
    | some d => digitsAux (10 * acc + d) cs
    | none => none

/-- Digits of a non-empty all-digit string; `none` otherwise. -/
def digitsToNat : List Char → Option Nat
  | [] => none
  | c :: cs => digitsAux 0 (c :: cs)

/-- Magnitude part of `i128::from_str` for a non-negative result: in-range
check against i128::MAX. -/
def posOf : Option Nat → Option Int
  | some v => if (v : Int) < i128Half then some (v : Int) else none
  | none => none

/-- Magnitude part of `i128::from_str` for a negated result: in-range check
against i128::MIN. -/
def negOf : Option Nat → Option Int
  | some v => if (v : Int) ≤ i128Half then some (-(v : Int)) else none
  | none => none

/-- Rust `str::parse::<i128>`: optional sign, then a non-empty run of
decimal digits, with the i128 range check. -/
def parseI128 (cs : List Char) : Option Int :=
  match cs with
  | [] => none
  | c :: rest =>
    if c = '+' then posOf (digitsToNat rest)
    else if c = '-' then negOf (digitsToNat rest)
    else posOf (digitsToNat (c :: rest))

/-- Outcome of fn parse: `ok` mirrors `Ok(scale * n)`, `err` mirrors
`Err(val.into())` (the error carries the literal), and `crash` marks the
executions in which the Rust code panics. -/
inductive ParseResult where
  | ok (n : Int)
  | err (lit : List Char)
  | crash
deriving DecidableEq

/-- The suffix alphabet `const MAP: &str = "KMGTPEZY"` of fn parse. -/
def MAP : List Char := ['K', 'M', 'G', 'T', 'P', 'E', 'Z', 'Y']

/-- The tail of fn parse: `val[0..len].parse::<i128>()` mapped to
`Ok(scale * n)` or `Err(val.into())`; a bad slice is a panic. -/
def parseBody (val : List Char) (len : Nat) (scale : Int) : ParseResult :=
  match sliceTo val len with
  | none => ParseResult.crash
  | some body =>
    match parseI128 body with
    | some n => ParseResult.ok (wrapI128 (scale * n))
    | none => ParseResult.err val

/-- fn parse (lib.rs:148-178).  `val.chars().last().unwrap()` on the empty
string is a panic; in the `'B'` arm, `len -= 2` wraps modulo 2^64 (so for a
one-byte input the following slice `val[0..=len]` panics), and the wrapped
`len` is inlined below where the Rust code reuses the variable. -/
def parse (val : List Char) : ParseResult :=
  match val.getLast? with
  | none => ParseResult.crash
  | some c =>
    if c = 'b' then
      parseBody val (byteLen val - 1) 512
    else if c = 'B' then
      match sliceTo val (((byteLen val + (usizeMod - 2)) % usizeMod) + 1) with
      | none => ParseResult.crash
      | some pre =>
        match pre.getLast? with
        | none => ParseResult.crash
        | some c2 =>
          if c2 = 'k' then
            parseBody val ((byteLen val + (usizeMod - 2)) % usizeMod) 1000
          else
            match strFind c2 MAP with
            | some n => parseBody val ((byteLen val + (usizeMod - 2)) % usizeMod) ((10 : Int) ^ n)
            | none => ParseResult.err val
    else
      match strFind c MAP with
      | some n => parseBody val (byteLen val - 1) ((2 : Int) ^ (10 * (n + 1)))
      | none => parseBody val (byteLen val) 1

/-- Is a byte a UTF-8 continuation byte (0x80-0xBF)? -/
def contB (b : Nat) : Bool := 128 ≤ b && b ≤ 191

/-- UTF-8 validity of a byte sequence, as checked by Rust
`str::from_utf8` (and hence by `BufRead::read_line`): the standard
lead-byte classes with their continuation ranges. -/
def validUtf8 : List Nat → Bool
  | [] => true
  | b :: rest =>
    if b ≤ 127 then validUtf8 rest
    else if 194 ≤ b && b ≤ 223 then
      match rest with
      | b2 :: r => contB b2 && validUtf8 r
      | [] => false
    else if b = 224 then
      match rest with
      | b2 :: b3 :: r => (160 ≤ b2 && b2 ≤ 191) && (contB b3 && validUtf8 r)
      | _ => false
    else if (225 ≤ b && b ≤ 236) || b = 238 || b = 239 then
      match rest with
      | b2 :: b3 :: r => contB b2 && (contB b3 && validUtf8 r)
      | _ => false
    else if b = 237 then
      match rest with
      | b2 :: b3 :: r => (128 ≤ b2 && b2 ≤ 159) && (contB b3 && validUtf8 r)
      | _ => false
    else if b = 240 then
      match rest with
      | b2 :: b3 :: b4 :: r => (144 ≤ b2 && b2 ≤ 191) && (contB b3 && (contB b4 && validUtf8 r))
      | _ => false
    else if 241 ≤ b && b ≤ 243 then
      match rest with
      | b2 :: b3 :: b4 :: r => contB b2 && (contB b3 && (contB b4 && validUtf8 r))
      | _ => false
    else if b = 244 then
      match rest with
      | b2 :: b3 :: b4 :: r => (128 ≤ b2 && b2 ≤ 143) && (contB b3 && (contB b4 && validUtf8 r))
      | _ => false
    else false

/-- UTF-8 encoding of U+FFFD, the replacement character. -/
def repChar : List Nat := [239, 191, 189]

/-- In-progress state of the lossy UTF-8 decoder: how many continuation
bytes are still expected, the allowed range for the next one, and the
bytes of the sequence read so far. -/
structure Utf8State where
  need : Nat
  lo : Nat
  hi : Nat
  buf : List Nat

/-- Transition of the lossy decoder on a lead byte: an ASCII byte is
emitted at once, a valid lead byte opens a multi-byte sequence with the
continuation range Rust `from_utf8_lossy` enforces for its second byte,
and an invalid lead byte becomes one replacement character. -/
def utf8Lead (b : Nat) : List Nat × Utf8State :=
  if b ≤ 127 then ([b], ⟨0, 0, 0, []⟩)
  else if 194 ≤ b && b ≤ 223 then ([], ⟨1, 128, 191, [b]⟩)
  else if b = 224 then ([], ⟨2, 160, 191, [b]⟩)
  else if (225 ≤ b && b ≤ 236) || b = 238 || b = 239 then ([], ⟨2, 128, 191, [b]⟩)
  else if b = 237 then ([], ⟨2, 128, 159, [b]⟩)
  else if b = 240 then ([], ⟨3, 144, 191, [b]⟩)
  else if 241 ≤ b && b ≤ 243 then ([], ⟨3, 128, 191, [b]⟩)
  else if b = 244 then ([], ⟨3, 128, 143, [b]⟩)
  else (repChar, ⟨0, 0, 0, []⟩)

/-- The lossy decoder loop: an expected continuation byte in range extends
the open sequence (emitted once complete); one out of range closes the
open sequence as a single replacement character - the maximal invalid
subpart, exactly the error lengths of Rust `from_utf8_lossy` - and the
offending byte is reprocessed as a lead; a truncated final sequence
becomes one replacement character. -/
def utf8Run : Utf8State → List Nat → List Nat
  | s, [] => if s.need = 0 then [] else repChar
  | s, b :: rest =>
    if s.need = 0 then
      (utf8Lead b).1 ++ utf8Run (utf8Lead b).2 rest
    else if s.lo ≤ b && b ≤ s.hi then
      if s.need = 1 then (s.buf ++ [b]) ++ utf8Run ⟨0, 0, 0, []⟩ rest
      else utf8Run ⟨s.need - 1, 128, 191, s.buf ++ [b]⟩ rest
    else
      repChar ++ ((utf8Lead b).1 ++ utf8Run (utf8Lead b).2 rest)

/-- Byte-level behaviour of Rust `String::from_utf8_lossy` followed by
printing the resulting string: valid sequences pass through unchanged,
each maximal invalid subpart becomes one replacement character. -/
def fromUtf8Lossy (l : List Nat) : List Nat := utf8Run ⟨0, 0, 0, []⟩ l

/-- One `read_line` step: the bytes up to and including the first newline
byte (or all remaining bytes), paired with the rest of the stream. -/
def takeLine : List Nat → List Nat × List Nat
  | [] => ([], [])
  | b :: rest =>
    if b = 10 then ([10], rest)
    else (b :: (takeLine rest).1, (takeLine rest).2)

/-- The newline-delimited records of a byte stream, each carrying its
terminating newline byte; a trailing unterminated record is kept.  The
number of records equals Rust `BufRead::lines().count()` (fn open uses
that count), and the records are exactly the successive `takeLine`
results. -/
def splitLines : List Nat → List (List Nat)
  | [] => []
  | b :: rest =>
    if b = 10 then [10] :: splitLines rest
    else
      match splitLines rest with
      | [] => [[b]]
      | l :: ls => (b :: l) :: ls

/-- The line-mode loop of fn run (lib.rs:115-122): up to `n` iterations of
`read_line` (which fails on invalid UTF-8 - the Bool is false exactly when
the `?` operator aborts the run), breaking at end of input, printing each
line as read. -/
def lineLoop : Nat → List Nat → List Nat × Bool
  | 0, _ => ([], true)
  | n + 1, data =>
    if validUtf8 (takeLine data).1 then
      if (takeLine data).1 = [] then ([], true)
      else ((takeLine data).1 ++ (lineLoop n (takeLine data).2).1, (lineLoop n (takeLine data).2).2)
    else ([], false)

/-- enum HeaderChoice (lib.rs:6-11). -/
inductive HeaderChoice where
  | always
  | never
  | multiple
deriving DecidableEq

/-- struct Config (lib.rs:13-19): the validated configuration handed to
fn run. -/
structure Config where
  files : List String
  lines : Int
  bytes : Option Int
  print_header : HeaderChoice

/-- Observable outcome of fn run: stdout bytes, the names reported on
stderr by the per-source `eprintln!`, and whether run returned Ok. -/
structure RunOut where
  out : List Nat
  err : List String
  ok : Bool
deriving DecidableEq

/-- UTF-8 bytes of a unicode scalar value. -/
def encodeChar (n : Nat) : List Nat :=
  if n < 128 then [n]
  else if n < 2048 then [192 + n / 64, 128 + n % 64]
  else if n < 65536 then [224 + n / 4096, 128 + n / 64 % 64, 128 + n % 64]
  else [240 + n / 262144, 128 + n / 4096 % 64, 128 + n / 64 % 64, 128 + n % 64]

/-- The bytes a Lean string writes when printed (UTF-8). -/
def strBytes (s : String) : List Nat := s.data.flatMap (fun c => encodeChar c.toNat)

/-- The header decision of fn run (lib.rs:88-92): `num_files` is the length
of the originally requested source list. -/
def headerOn (hc : HeaderChoice) (numFiles : Nat) : Bool :=
  match hc with
  | .always => true
  | .never => false
  | .multiple => numFiles > 1

/-- The header record printed by fn run (lib.rs:94-100): a newline before
it exactly when the 0-based position of the source in the requested list
is positive, then the banner line. -/
def headerBytes (fileNum : Nat) (filename : String) : List Nat :=
  strBytes ((if 0 < fileNum then "\n" else "") ++ ("==> " ++ (filename ++ " <=="))) ++ [10]

/-- The byte-mode take count (lib.rs:104-107): `if num_bytes < 0 { size as
i128 + num_bytes } else { num_bytes } as usize`; the cast from i128 to
usize truncates modulo 2^64 (a negative value wraps to a huge count). -/
def byteTakeCount (size : Nat) (numBytes : Int) : Nat :=
  ((if numBytes < 0 then (size : Int) + numBytes else numBytes) % (usizeMod : Int)).toNat

/-- The line-mode count (lib.rs:112-114): `if config.lines < 0 {
line_count as i128 + config.lines } else { config.lines }`; the loop
`for _ in 0..num_lines` then runs `toNat` of it many times. -/
def numLinesInt (lineCount : Nat) (lines : Int) : Int :=
  if lines < 0 then (lineCount : Int) + lines else lines

/-- Extraction for one opened source (lib.rs:102-123): byte mode takes
`byteTakeCount` bytes and prints them through `from_utf8_lossy` (never
fails on in-memory data); line mode runs `lineLoop`. -/
def extract (cfg : Config) (data : List Nat) (size lineCount : Nat) : List Nat × Bool :=
  match cfg.bytes with
  | some numBytes => (fromUtf8Lossy (data.take (byteTakeCount size numBytes)), true)
  | none => lineLoop (numLinesInt lineCount cfg.lines).toNat data

/-- fn open (lib.rs:128-146) over the pure file system: `-` is standard
input with size 0 and line count 1; a named file yields its bytes, its
metadata size and its `lines().count()`; `none` is an open failure. -/
def openSource (fs : String → Option (List Nat)) (stdinData : List Nat) (filename : String) :
    Option (List Nat × Nat × Nat) :=
  if filename = "-" then some (stdinData, 0, 1)
  else
    match fs filename with
    | some data => some (data, data.length, (splitLines data).length)
    | none => none

/-- One iteration of the loop in fn run for a single source: an open
failure is reported on stderr and skipped (header emission only happens
after a successful open); otherwise the optional header and the extracted
prefix are written. -/
def processSource (fs : String → Option (List Nat)) (si : List Nat) (cfg : Config)
    (numFiles fileNum : Nat) (filename : String) : RunOut :=
  match openSource fs si filename with
  | none => ⟨[], [filename], true⟩
  | some (data, size, lineCount) =>
    let hdr := if headerOn cfg.print_header numFiles then headerBytes fileNum filename else []
    let e := extract cfg data size lineCount
    ⟨hdr ++ e.1, [], e.2⟩

/-- The source loop of fn run from position `fileNum` on: a false `ok`
from an extraction (the `?` operator) aborts the remaining sources. -/
def runFrom (fs : String → Option (List Nat)) (si : List Nat) (cfg : Config) (numFiles : Nat) :
    Nat → List String → RunOut
  | _, [] => ⟨[], [], true⟩
  | fileNum, f :: rest =>
    let r := processSource fs si cfg numFiles fileNum f
    if r.ok then
      let r2 := runFrom fs si cfg numFiles (fileNum + 1) rest
      ⟨r.out ++ r2.out, r.err ++ r2.err, r2.ok⟩
    else r

/-- fn run (lib.rs:77-126): `num_files` is computed once, before the loop,
from the requested source list. -/
def runModel (fs : String → Option (List Nat)) (si : List Nat) (cfg : Config) : RunOut :=
  runFrom fs si cfg cfg.files.length 0 cfg.files

/-! Helper lemmas about the parse embedding. -/

theorem charSize_pos (c : Char) : 1 ≤ charSize c := by
  unfold charSize; split_ifs <;> omega

theorem byteLen_nil : byteLen [] = 0 := rfl

theorem byteLen_cons (c : Char) (cs : List Char) :
    byteLen (c :: cs) = charSize c + byteLen cs := by
  simp [byteLen]

theorem byteLen_append (l t : List Char) : byteLen (l ++ t) = byteLen l + byteLen t := by
  simp [byteLen]

/-- Slicing a concatenation at the byte length of its first part yields
exactly that part. -/
theorem sliceTo_byteLen_append (l t : List Char) : sliceTo (l ++ t) (byteLen l) = some l := by
  induction l with
  | nil => rw [byteLen_nil, List.nil_append, sliceTo.eq_def]; simp
  | cons c cs ih =>
    have h1 : 1 ≤ charSize c := charSize_pos c
    rw [List.cons_append, byteLen_cons]
    rw [sliceTo.eq_def]
    rw [if_neg (by omega)]
    dsimp only
    rw [if_pos (by omega)]
    rw [Nat.add_sub_cancel_left]
    rw [ih]
    rfl

theorem digitsAux_byteLen (l : List Char) :
    ∀ acc v, digitsAux acc l = some v → byteLen l = l.length := by
  induction l with
  | nil => intro acc v _; rfl
  | cons c cs ih =>
    intro acc v h
    unfold digitsAux at h
    cases hd : digitVal c with
    | none => simp [hd] at h
    | some d =>
      simp only [hd] at h
      have hcs := ih _ _ h
      have hc1 : charSize c = 1 := by
        unfold digitVal at hd
        split_ifs at hd with h48
        unfold charSize
        rw [if_pos (by omega)]
      rw [byteLen_cons, hc1, hcs, List.length_cons]
      omega

theorem digitsToNat_byteLen (l : List Char) (v : Nat) (h : digitsToNat l = some v) :
    byteLen l = l.length := by
  cases l with
  | nil => rfl
  | cons c cs => exact digitsAux_byteLen (c :: cs) 0 v h

/-- A string accepted by `parseI128` is all ASCII, so its byte length is
its character count. -/
theorem parseI128_byteLen (cs : List Char) (v : Int) (h : parseI128 cs = some v) :
    byteLen cs = cs.length := by
  cases cs with
  | nil => rfl
  | cons c rest =>
    simp only [parseI128] at h
    split_ifs at h with hplus hminus
    · subst hplus
      cases hdg : digitsToNat rest with
      | none => rw [hdg] at h; exact absurd h (by simp [posOf])
      | some n =>
        have := digitsToNat_byteLen rest n hdg
        rw [byteLen_cons, this, List.length_cons]
        have hp : charSize '+' = 1 := rfl
        omega
    · subst hminus
      cases hdg : digitsToNat rest with
      | none => rw [hdg] at h; exact absurd h (by simp [negOf])
      | some n =>
        have := digitsToNat_byteLen rest n hdg
        rw [byteLen_cons, this, List.length_cons]
        have hp : charSize '-' = 1 := rfl
        omega
    · cases hdg : digitsToNat (c :: rest) with
      | none => rw [hdg] at h; exact absurd h (by simp [posOf])
      | some n => exact digitsToNat_byteLen (c :: rest) n hdg

/-- A letter found in MAP is one of the eight ASCII uppercase letters, so
its byte width is 1, it is not the lowercase k, and its index is below 8. -/
theorem strFind_MAP_char (c : Char) (i : Nat) (h : strFind c MAP = some i) :
    charSize c = 1 ∧ c ≠ 'k' ∧ i < 8 := by
  simp only [MAP, strFind] at h
  split_ifs at h with h1 h2 h3 h4 h5 h6 h7 h8
  · subst h1; simp at h; subst h; decide
  · subst h2; simp at h; subst h; decide
  · subst h3; simp at h; subst h; decide
  · subst h4; simp at h; subst h; decide
  · subst h5; simp at h; subst h; decide
  · subst h6; simp at h; subst h; decide
  · subst h7; simp at h; subst h; decide
  · subst h8; simp at h; subst h; decide
  · simp at h

/-- Wraparound is the identity on in-range values. -/
theorem wrapI128_eq (x : Int) (h1 : -i128Half ≤ x) (h2 : x < i128Half) : wrapI128 x = x := by
  unfold wrapI128 i128Half i128Mod at *
  rw [Int.emod_eq_of_lt (by omega) (by omega)]
  omega

/-- Evaluation of fn parse on a string built from a body and a two-letter
suffix ending in `B`, where the letter before `B` is one byte wide: the
scale is 1000 for a lowercase k and `10 ^ (index in MAP)` otherwise. -/
theorem parse_suffixB (bs : List Char) (c : Char)
    (hc : charSize c = 1) (hbl : byteLen bs = bs.length) (hlen : bs.length + 2 < usizeMod) :
    parse (bs ++ [c, 'B']) =
      if c = 'k' then parseBody (bs ++ [c, 'B']) bs.length 1000
      else
        match strFind c MAP with
        | some n => parseBody (bs ++ [c, 'B']) bs.length ((10 : Int) ^ n)
        | none => ParseResult.err (bs ++ [c, 'B']) := by
  have hlast : (bs ++ [c, 'B']).getLast? = some 'B' := by
    rw [show bs ++ [c, 'B'] = (bs ++ [c]) ++ ['B'] by simp]
    exact List.getLast?_concat _
  have hbyte : byteLen (bs ++ [c, 'B']) = bs.length + 2 := by
    rw [byteLen_append, hbl, byteLen_cons, byteLen_cons, hc]
    have hB : charSize 'B' = 1 := rfl
    rw [hB, byteLen_nil]
  have hmod : (byteLen (bs ++ [c, 'B']) + (usizeMod - 2)) % usizeMod = bs.length := by
    rw [hbyte]; unfold usizeMod at *; omega
  have hslice1 : sliceTo (bs ++ [c, 'B']) (bs.length + 1) = some (bs ++ [c]) := by
    have he : bs ++ [c, 'B'] = (bs ++ [c]) ++ ['B'] := by simp
    have hb2 : byteLen (bs ++ [c]) = bs.length + 1 := by
      rw [byteLen_append, hbl, byteLen_cons, hc, byteLen_nil]
    rw [he, ← hb2]
    exact sliceTo_byteLen_append _ _
  have hlast2 : (bs ++ [c]).getLast? = some c := List.getLast?_concat _
  unfold parse
  rw [hlast]
  dsimp only
  rw [if_neg (by decide : ¬('B' : Char) = 'b'), if_pos (rfl : ('B' : Char) = 'B')]
  rw [hmod, hslice1]
  dsimp only
  rw [hlast2]

/-! Claims about fn parse. -/

/-- C2, counterexample: the claim says an uppercase letter at 0-based index
i in KMGTPEZY followed by B scales by 10^(i+1), so parse "1KB" would be
10; the code computes 10^i, so parse "1KB" is 1. -/
theorem C2_cex :
    parse ['1', 'K', 'B'] = ParseResult.ok 1 ∧
    parse ['1', 'K', 'B'] ≠ ParseResult.ok 10 := by decide

/-- C2, amended: for every numeric body v and uppercase letter at 0-based
index i in KMGTPEZY immediately followed by a trailing B, parse returns
v * 10^i (K gives 10^0 = 1, M gives 10^1, and so on), and a lowercase k
immediately before B gives scale 1000 (stated for results in i128 range;
out-of-range products wrap). -/
theorem C2_thm (bs : List Char) (v : Int)
    (hbody : parseI128 bs = some v) (hlen : bs.length + 2 < usizeMod) :
    (∀ c i, strFind c MAP = some i →
        -i128Half ≤ (10 : Int) ^ i * v → (10 : Int) ^ i * v < i128Half →
        parse (bs ++ [c, 'B']) = ParseResult.ok ((10 : Int) ^ i * v)) ∧
    (-i128Half ≤ 1000 * v → 1000 * v < i128Half →
        parse (bs ++ ['k', 'B']) = ParseResult.ok (1000 * v)) := by
  have hbl : byteLen bs = bs.length := parseI128_byteLen bs v hbody
  constructor
  · intro c i hf h1 h2
    obtain ⟨hcs, hck, _⟩ := strFind_MAP_char c i hf
    rw [parse_suffixB bs c hcs hbl hlen]
    rw [if_neg hck, hf]
    dsimp only
    unfold parseBody
    rw [show sliceTo (bs ++ [c, 'B']) bs.length = some bs from by
      rw [← hbl]; exact sliceTo_byteLen_append bs [c, 'B']]
    dsimp only
    rw [hbody]
    dsimp only
    rw [wrapI128_eq _ h1 h2]
  · intro h1 h2
    rw [parse_suffixB bs 'k' rfl hbl hlen]
    rw [if_pos rfl]
    unfold parseBody
    rw [show sliceTo (bs ++ ['k', 'B']) bs.length = some bs from by
      rw [← hbl]; exact sliceTo_byteLen_append bs ['k', 'B']]
    dsimp only
    rw [hbody]
    dsimp only
    rw [wrapI128_eq _ h1 h2]

/-- C2, witness: the amended theorem applied at body "3" with letter M
(index 1, scale 10) and at the lowercase k case. -/
theorem C2_thm_witness :
    parse ['3', 'M', 'B'] = ParseResult.ok 30 ∧
    parse ['3', 'k', 'B'] = ParseResult.ok 3000 := by
  have h := C2_thm ['3'] 3 (by decide) (by decide)
  constructor
  · have h2 := h.1 'M' 1 (by decide) (by decide) (by decide)
    have he : (10 : Int) ^ 1 * 3 = 30 := by norm_num
    rwa [he] at h2
  · have h2 := h.2 (by decide) (by decide)
    have he : (1000 : Int) * 3 = 3000 := by norm_num
    rwa [he] at h2

/-- C3, counterexample: the claim says parse "3k" = 3 * 1024, but the
suffix alphabet KMGTPEZY is uppercase only, so the code leaves the scale
at 1 and fails to parse the body "3k"; the error carries the literal. -/
theorem C3_cex :
    parse ['3', 'k'] = ParseResult.err ['3', 'k'] ∧
    parse ['3', 'k'] ≠ ParseResult.ok (3 * 1024) := by decide

/-- C3, amended: three of the four unit-suffix examples hold - parse "3kB"
is 3000, parse "3G" is 3 * 2^30 and parse "100b" is 100 * 512 - but
parse "3k" fails with a ParseError carrying "3k". -/
theorem C3_thm :
    parse ['3', 'k', 'B'] = ParseResult.ok 3000 ∧
    parse ['3', 'G'] = ParseResult.ok (3 * 2 ^ 30) ∧
    parse ['1', '0', '0', 'b'] = ParseResult.ok (100 * 512) ∧
    parse ['3', 'k'] = ParseResult.err ['3', 'k'] := by decide

/-- C4, evaluation at the failing inputs: parse panics on the empty string
(chars().last().unwrap() of an empty iterator) and on the one-character
string B (len -= 2 underflows usize, making the slice val[0..=len] panic),
instead of returning the ParseError the claim describes; on "foo" it does
return the error carrying the literal verbatim. -/
theorem C4_code_eval :
    parse [] = ParseResult.crash ∧
    parse ['B'] = ParseResult.crash ∧
    parse ['f', 'o', 'o'] = ParseResult.err ['f', 'o', 'o'] := by decide

/-! Helper lemmas about the line machinery of the run embedding. -/

theorem takeLine_fst_ne_nil (b : Nat) (rest : List Nat) : (takeLine (b :: rest)).1 ≠ [] := by
  unfold takeLine; split_ifs <;> simp

/-- For non-empty data, the records of `splitLines` are the first
`takeLine` line followed by the records of the remaining stream. -/
theorem splitLines_takeLine (data : List Nat) (h : data ≠ []) :
    splitLines data = (takeLine data).1 :: splitLines (takeLine data).2 := by
  induction data with
  | nil => exact absurd rfl h
  | cons b rest ih =>
    by_cases hb : b = 10
    · subst hb; simp [splitLines, takeLine]
    · by_cases hr : rest = []
      · subst hr; simp [splitLines, takeLine, hb]
      · have ihr := ih hr
        simp only [splitLines, takeLine, if_neg hb]
        rw [ihr]

/-- Concatenating the records of `splitLines` restores the stream. -/
theorem splitLines_flatten (data : List Nat) : (splitLines data).flatten = data := by
  induction data with
  | nil => rfl
  | cons b rest ih =>
    by_cases hb : b = 10
    · subst hb; simp [splitLines, ih]
    · cases hsp : splitLines rest with
      | nil =>
        have hrest : rest = [] := by
          have h2 := ih; rw [hsp] at h2; simpa using h2.symm
        subst hrest
        simp [splitLines, hb]
      | cons l ls =>
        simp only [splitLines, if_neg hb, hsp]
        rw [← ih, hsp]
        simp

/-- The line loop on a stream whose lines are all valid UTF-8 emits the
concatenation of the first `n` lines and succeeds. -/
theorem lineLoop_spec (n : Nat) :
    ∀ data, (splitLines data).all validUtf8 = true →
      lineLoop n data = (((splitLines data).take n).flatten, true) := by
  induction n with
  | zero => intro data hv; simp [lineLoop]
  | succ n ih =>
    intro data hv
    cases data with
    | nil =>
      have h0 : validUtf8 [] = true := rfl
      simp [lineLoop, takeLine, splitLines, h0]
    | cons b rest =>
      have hsp := splitLines_takeLine (b :: rest) (by simp)
      rw [hsp] at hv
      simp only [List.all_cons, Bool.and_eq_true] at hv
      obtain ⟨hv1, hv2⟩ := hv
      have hne := takeLine_fst_ne_nil b rest
      simp only [lineLoop]
      rw [if_pos hv1, if_neg hne]
      rw [ih _ hv2]
      rw [hsp]
      simp

/-! Claims about byte mode and line mode extraction. -/

/-- C1, evaluation at the failing input: with byte spec -5 on a 3-byte
file, the take count (size + num_bytes) as usize wraps the negative i128
value -2 to 2^64 - 2, so the whole file is emitted; the claim (and the
spec) say n = max(0, byteSize - m) = 0 bytes. -/
theorem C1_code_eval :
    byteTakeCount 3 (-5) = 18446744073709551614 ∧
    runModel (fun g => if g = "f" then some [97, 98, 99] else none) []
        ⟨["f"], 10, some (-5), HeaderChoice.multiple⟩ = ⟨[97, 98, 99], [], true⟩ := by decide

/-- C5, counterexample: the claim covers every source, but on a source
whose first line is not valid UTF-8 ([255, 10, 98, 10], so L = 2) with
magnitude -1, the claim says the first L - m = 1 line - the bytes
[255, 10] - is emitted; the code instead aborts inside read_line with a
UTF-8 error and emits nothing, returning Err. -/
theorem C5_cex :
    runModel (fun g => if g = "f2" then some [255, 10, 98, 10] else none) []
        ⟨["f2"], -1, none, HeaderChoice.multiple⟩ = ⟨[], [], false⟩ ∧
    (splitLines [255, 10, 98, 10]).length = 2 ∧
    ((splitLines [255, 10, 98, 10]).take 1).flatten = [255, 10] := by decide

/-- C5, amended: in line mode with magnitude -m on a file with L lines
whose lines are all valid UTF-8, the run emits exactly the concatenation
of the first L - m lines - a prefix of the source read head-to-tail - when
m is at most L, and emits nothing when m exceeds L; both without error.
(A source with an invalid UTF-8 line instead aborts the run, per C9.) -/
theorem C5_thm (fs : String → Option (List Nat)) (data : List Nat) (f : String) (m : Nat)
    (hf : f ≠ "-") (hfs : fs f = some data)
    (hv : (splitLines data).all validUtf8 = true) (hm0 : 0 < m) :
    (m ≤ (splitLines data).length →
        runModel fs [] ⟨[f], -(m : Int), none, HeaderChoice.multiple⟩ =
          ⟨((splitLines data).take ((splitLines data).length - m)).flatten, [], true⟩ ∧
        ∃ rest, data = ((splitLines data).take ((splitLines data).length - m)).flatten ++ rest) ∧
    ((splitLines data).length < m →
        runModel fs [] ⟨[f], -(m : Int), none, HeaderChoice.multiple⟩ = ⟨[], [], true⟩) := by
  have hopen : openSource fs [] f = some (data, data.length, (splitLines data).length) := by
    unfold openSource
    rw [if_neg hf, hfs]
  have hrm : runModel fs [] ⟨[f], -(m : Int), none, HeaderChoice.multiple⟩ =
      ⟨(lineLoop (numLinesInt (splitLines data).length (-(m : Int))).toNat data).1, [],
        (lineLoop (numLinesInt (splitLines data).length (-(m : Int))).toNat data).2⟩ := by
    unfold runModel
    simp only [List.length_singleton]
    unfold runFrom
    rw [show processSource fs [] ⟨[f], -(m : Int), none, HeaderChoice.multiple⟩ 1 0 f =
        ⟨(lineLoop (numLinesInt (splitLines data).length (-(m : Int))).toNat data).1, [],
          (lineLoop (numLinesInt (splitLines data).length (-(m : Int))).toNat data).2⟩ from by
      unfold processSource
      rw [hopen]
      dsimp only
      rw [show headerOn HeaderChoice.multiple 1 = false from rfl]
      simp only [Bool.false_eq_true, if_false]
      unfold extract
      dsimp only
      simp]
    dsimp only
    split_ifs with hok
    · unfold runFrom; simp [hok]
    · rfl
  constructor
  · intro hm
    have hnl : (numLinesInt (splitLines data).length (-(m : Int))).toNat =
        (splitLines data).length - m := by
      unfold numLinesInt
      rw [if_pos (by omega : -(m : Int) < 0)]
      omega
    constructor
    · rw [hrm, hnl, lineLoop_spec _ data hv]
    · refine ⟨((splitLines data).drop ((splitLines data).length - m)).flatten, ?_⟩
      rw [← List.flatten_append, List.take_append_drop, splitLines_flatten]
  · intro hm
    have hnl : (numLinesInt (splitLines data).length (-(m : Int))).toNat = 0 := by
      unfold numLinesInt
      rw [if_pos (by omega : -(m : Int) < 0)]
      omega
    rw [hrm, hnl]
    rfl

/-- C5, witness: a two-line file "a\nb\n" with magnitude -1 emits exactly
the first line. -/
theorem C5_thm_witness :
    runModel (fun g => if g = "x" then some [97, 10, 98, 10] else none) []
        ⟨["x"], -1, none, HeaderChoice.multiple⟩ = ⟨[97, 10], [], true⟩ := by
  have h := (C5_thm (fun g => if g = "x" then some [97, 10, 98, 10] else none)
      [97, 10, 98, 10] "x" 1 (by decide) (by decide) (by decide) (by decide)).1 (by decide)
  have h1 := h.1
  norm_num at h1
  convert h1 using 2

/-! Claims about headers, failure isolation and the run outcome. -/

theorem strBytes_append (s t : String) : strBytes (s ++ t) = strBytes s ++ strBytes t := by
  simp [strBytes, String.data_append, List.flatMap_append]

/-- C6, counterexample: with sources ["bad", "ok"] where "bad" fails to
open, the first header actually emitted (for "ok") is still preceded by a
blank line - the newline decision uses the position in the requested list,
not whether a header was emitted before - contradicting the claim that the
first emitted header never has a leading blank line even when earlier
sources failed. -/
theorem C6_cex :
    runModel (fun g => if g = "ok" then some [97] else none) []
        ⟨["bad", "ok"], 10, none, HeaderChoice.multiple⟩ =
      ⟨[10] ++ strBytes "==> ok <==" ++ [10] ++ [97], ["bad"], true⟩ ∧
    (runModel (fun g => if g = "ok" then some [97] else none) []
        ⟨["bad", "ok"], 10, none, HeaderChoice.multiple⟩).out.head? = some 10 := by decide

/-- C6, amended: when the policy dictates headers, each opened source gets
the literal line `==> {name} <==` with the source identifier as given, and
exactly one blank line precedes the header of every source whose 0-based
position in the requested list is positive - even when it is the first
header emitted because earlier sources failed - while the source at
position 0 gets no leading blank line. -/
theorem C6_thm (fs : String → Option (List Nat)) (si : List Nat) (cfg : Config)
    (numFiles fileNum : Nat) (filename : String) (data : List Nat) (size lineCount : Nat)
    (ho : openSource fs si filename = some (data, size, lineCount))
    (hp : headerOn cfg.print_header numFiles = true) :
    processSource fs si cfg numFiles fileNum filename =
      ⟨((if 0 < fileNum then [10] else []) ++ strBytes ("==> " ++ (filename ++ " <==")) ++ [10])
          ++ (extract cfg data size lineCount).1,
        [], (extract cfg data size lineCount).2⟩ := by
  unfold processSource
  rw [ho]
  dsimp only
  rw [if_pos hp]
  unfold headerBytes
  rw [strBytes_append]
  by_cases h0 : 0 < fileNum
  · rw [if_pos h0, if_pos h0]
    have h1 : strBytes "\n" = [10] := rfl
    rw [h1]
  · rw [if_neg h0, if_neg h0]
    have h1 : strBytes "" = [] := rfl
    rw [h1]

/-- C6, witness: the amended theorem at position 1 under policy Always. -/
theorem C6_thm_witness :
    processSource (fun g => if g = "w" then some [97] else none) []
        ⟨["w"], 10, none, HeaderChoice.always⟩ 1 1 "w" =
      ⟨([10] ++ strBytes ("==> " ++ ("w" ++ " <==")) ++ [10]) ++ [97], [], true⟩ := by
  have h := C6_thm (fun g => if g = "w" then some [97] else none) []
      ⟨["w"], 10, none, HeaderChoice.always⟩ 1 1 "w" [97] 1 1 (by decide) (by decide)
  rw [h]
  decide

/-- C7: a source that fails to open contributes exactly one stderr report
and nothing else; the remaining sources are processed with the same
numFiles (at top level: the originally requested list length) and their
headers and content are unaffected. -/
theorem C7_thm (fs : String → Option (List Nat)) (si : List Nat) (cfg : Config)
    (bad : String) (rest : List String) (hbad : openSource fs si bad = none) :
    (∀ numFiles fileNum,
        runFrom fs si cfg numFiles fileNum (bad :: rest) =
          ⟨(runFrom fs si cfg numFiles (fileNum + 1) rest).out,
            bad :: (runFrom fs si cfg numFiles (fileNum + 1) rest).err,
            (runFrom fs si cfg numFiles (fileNum + 1) rest).ok⟩) ∧
    (cfg.files = bad :: rest →
        runModel fs si cfg =
          ⟨(runFrom fs si cfg (bad :: rest).length 1 rest).out,
            bad :: (runFrom fs si cfg (bad :: rest).length 1 rest).err,
            (runFrom fs si cfg (bad :: rest).length 1 rest).ok⟩) := by
  have hps : ∀ nf k, processSource fs si cfg nf k bad = ⟨[], [bad], true⟩ := by
    intro nf k
    unfold processSource
    rw [hbad]
  have hmain : ∀ numFiles fileNum,
      runFrom fs si cfg numFiles fileNum (bad :: rest) =
        ⟨(runFrom fs si cfg numFiles (fileNum + 1) rest).out,
          bad :: (runFrom fs si cfg numFiles (fileNum + 1) rest).err,
          (runFrom fs si cfg numFiles (fileNum + 1) rest).ok⟩ := by
    intro nf k
    simp only [runFrom]
    rw [hps nf k]
    simp
  refine ⟨hmain, ?_⟩
  intro hfiles
  unfold runModel
  rw [hfiles]
  simpa using hmain (bad :: rest).length 0

/-- C7, witness: the theorem at sources ["b", "a"] where "b" fails. -/
theorem C7_thm_witness :
    runModel (fun g => if g = "a" then some [97] else none) []
        ⟨["b", "a"], 10, none, HeaderChoice.multiple⟩ =
      ⟨(runFrom (fun g => if g = "a" then some [97] else none) []
          ⟨["b", "a"], 10, none, HeaderChoice.multiple⟩ 2 1 ["a"]).out,
        "b" :: (runFrom (fun g => if g = "a" then some [97] else none) []
          ⟨["b", "a"], 10, none, HeaderChoice.multiple⟩ 2 1 ["a"]).err,
        (runFrom (fun g => if g = "a" then some [97] else none) []
          ⟨["b", "a"], 10, none, HeaderChoice.multiple⟩ 2 1 ["a"]).ok⟩ :=
  (C7_thm (fun g => if g = "a" then some [97] else none) []
      ⟨["b", "a"], 10, none, HeaderChoice.multiple⟩ "b" ["a"] (by decide)).2 rfl

/-- C8, counterexample: with sources ["missing.txt", "ok.txt"] where the
first fails to open, run reports the failure on stderr but still returns
Ok - no process-level failure is signalled to the caller, contradicting
the claim. -/
theorem C8_cex :
    (runModel (fun g => if g = "ok.txt" then some [111, 107, 10] else none) []
        ⟨["missing.txt", "ok.txt"], 10, none, HeaderChoice.multiple⟩).err = ["missing.txt"] ∧
    (runModel (fun g => if g = "ok.txt" then some [111, 107, 10] else none) []
        ⟨["missing.txt", "ok.txt"], 10, none, HeaderChoice.multiple⟩).ok = true := by decide

/-- C8, amended: per-source open failures are only reported on the error
channel and never change the value run returns; in byte mode run returns
success for every file system and source list, failures included. -/
theorem C8_thm (fs : String → Option (List Nat)) (si : List Nat) (cfg : Config) (nb : Int)
    (hb : cfg.bytes = some nb) : (runModel fs si cfg).ok = true := by
  have hps : ∀ nf k f, (processSource fs si cfg nf k f).ok = true := by
    intro nf k f
    unfold processSource
    cases ho : openSource fs si f with
    | none => rfl
    | some triple =>
      obtain ⟨d, sz, lc⟩ := triple
      dsimp only
      unfold extract
      rw [hb]
  have hrun : ∀ (l : List String) (k : Nat), (runFrom fs si cfg cfg.files.length k l).ok = true := by
    intro l
    induction l with
    | nil => intro k; rfl
    | cons f rest ih =>
      intro k
      simp only [runFrom]
      split_ifs with hok
      · exact ih (k + 1)
      · exact absurd (hps _ _ _) hok
  exact hrun cfg.files 0

/-- C8, witness: the amended theorem on a run whose only source fails. -/
theorem C8_thm_witness :
    (runModel (fun _ => none) [] ⟨["x"], 10, some 5, HeaderChoice.multiple⟩).ok = true :=
  C8_thm (fun _ => none) [] ⟨["x"], 10, some 5, HeaderChoice.multiple⟩ 5 rfl

/-- C9, counterexample: in line mode, a line whose bytes are not valid
UTF-8 makes read_line fail and the whole run abort - invalid sequences are
not lossily replaced in line mode, contradicting the claim. -/
theorem C9_cex :
    runModel (fun g => if g = "f" then some [255, 10] else none) []
        ⟨["f"], 10, none, HeaderChoice.multiple⟩ = ⟨[], [], false⟩ ∧
    validUtf8 [255, 10] = false := by decide

/-- C9, amended: in byte mode, extraction always succeeds - the taken
bytes are printed through the lossy decoder, which substitutes replacement
characters and never fails - and exactly min(count, byteSize) bytes of the
source are consumed; in line mode invalid UTF-8 aborts the run. -/
theorem C9_thm (cfg : Config) (data : List Nat) (size lineCount : Nat) (nb : Int)
    (hb : cfg.bytes = some nb) :
    extract cfg data size lineCount =
      (fromUtf8Lossy (data.take (byteTakeCount size nb)), true) ∧
    (data.take (byteTakeCount size nb)).length = min (byteTakeCount size nb) data.length := by
  constructor
  · unfold extract
    rw [hb]
  · exact List.length_take _ _

/-- C9, witness: byte mode on content starting with the invalid byte 255
succeeds and emits the replacement character in its place. -/
theorem C9_thm_witness :
    extract ⟨["-"], 10, some 2, HeaderChoice.multiple⟩ [255, 97] 2 1 =
      ([239, 191, 189, 97], true) := by
  have h := (C9_thm ⟨["-"], 10, some 2, HeaderChoice.multiple⟩ [255, 97] 2 1 2 rfl).1
  rw [h]
  decide

/-- C10: a source that fails to open produces no output at all - in
particular no header, under any header policy including Always - only the
stderr report; the header decision happens after the successful open. -/
theorem C10_thm (fs : String → Option (List Nat)) (si : List Nat) (cfg : Config)
    (numFiles fileNum : Nat) (filename : String)
    (h : openSource fs si filename = none) :
    processSource fs si cfg numFiles fileNum filename = ⟨[], [filename], true⟩ := by
  unfold processSource
  rw [h]

/-- C10, witness: the theorem under policy Always on a failing source. -/
theorem C10_thm_witness :
    processSource (fun _ => none) [] ⟨["x"], 10, none, HeaderChoice.always⟩ 1 0 "x" =
      ⟨[], ["x"], true⟩ :=
  C10_thm (fun _ => none) [] ⟨["x"], 10, none, HeaderChoice.always⟩ 1 0 "x" (by decide)

end Headr
